import Mathlib

/-!
Shallow embedding of the Babyfoot front-end core
(src/front-end/src/routes/create/+page.svelte and
src/front-end/src/routes/leaderboard/+page.ts), together with proofs of the
specification's testable properties about it.

Conventions:
* JS arrays become `List`; JS numbers that the code only ever treats as
  integers (player ids, scores, `Math.round` results) become `Int`, and the
  rating values `mu`/`sigma` become `Rat` so that `Math.round` is meaningful.
* The mutable `columnItems` array of the create page becomes a value of type
  `List Column` threaded through the operations.
* Fallible score coercion (`Number(...)` possibly yielding `NaN`) becomes
  `Option Int`; the submit handler's early-return error paths become
  `Except SubmitError`.
-/

namespace Babyfoot

/-- Item of a drag-and-drop column: `type DndItem = { id; name; color? }`. -/
structure DndItem where
  id : Int
  name : String
  color : Option String
deriving Repr, DecidableEq

/-- Column of the create page: one entry of the `columnItems` state array,
`{ id; name; class; items }` (the CSS `class` field is presentational and
carried along unchanged). -/
structure Column where
  id : Nat
  name : String
  cls : String
  items : List DndItem
deriving Repr, DecidableEq

/-- Column id constant `const COL_PLAYERS = 1`. -/
def COL_PLAYERS : Nat := 1

/-- Column id constant `const COL_RED = 2`. -/
def COL_RED : Nat := 2

/-- Column id constant `const COL_BLUE = 3`. -/
def COL_BLUE : Nat := 3

/-- Player record from the layout load:
`type PlayerLite = { id; player_name; player_color; active }`. -/
structure PlayerLite where
  id : Int
  player_name : String
  player_color : String
  active : Bool
deriving Repr, DecidableEq

/-- Initial `columnItems` state: POOL holds the active players mapped to
items, both teams start empty (create/+page.svelte lines 25-38). -/
def initColumns (players : List PlayerLite) : List Column :=
  [ { id := COL_PLAYERS, name := "Joueurs", cls := "players",
      items := (players.filter (fun p => p.active)).map
        (fun p => { id := p.id, name := p.player_name, color := some p.player_color }) },
    { id := COL_RED, name := "Equipe rouge", cls := "team-red", items := [] },
    { id := COL_BLUE, name := "Equipe bleue", cls := "team-blue", items := [] } ]

/-- Models `items.findIndex(i => p i)` followed by `items.splice(idx, 1)`:
returns the first element satisfying `p` together with the list without it,
or `none` when no element matches. -/
def spliceFirst (p : DndItem → Bool) : List DndItem → Option (DndItem × List DndItem)
  | [] => none
  | x :: xs =>
    if p x then some (x, xs)
    else (spliceFirst p xs).map (fun r => (r.1, x :: r.2))

/-- Models the first loop of `moveItemToColumn`: walk the columns in order,
splice the item with id `itemId` out of the first column that holds one, and
stop there (the JS loop `break`s after the splice). -/
def removeFirst (itemId : Int) : List Column → Option DndItem × List Column
  | [] => (none, [])
  | c :: cs =>
    match spliceFirst (fun i => i.id == itemId) c.items with
    | some r => (some r.1, { c with items := r.2 } :: cs)
    | none =>
      let rest := removeFirst itemId cs
      (rest.1, c :: rest.2)

/-- Models the second half of `moveItemToColumn`: `columnItems.find(c =>
c.id === targetColId)` updates the first column with the target id, appending
`found` unless that column already has an item with the same id; when no
column matches, the function returns with no further change. -/
def addToTarget (targetColId : Nat) (found : DndItem) : List Column → List Column
  | [] => []
  | c :: cs =>
    if c.id == targetColId then
      (if c.items.any (fun i => i.id == found.id) then c
       else { c with items := c.items ++ [found] }) :: cs
    else c :: addToTarget targetColId found cs

/-- Quick-move helper `moveItemToColumn(itemId, targetColId)`
(create/+page.svelte lines 69-88): splice the item out of whichever column
holds it (`if (!found) return;` leaves the state untouched), then append it
to the target column unless that column already contains the id. -/
def moveItemToColumn (itemId : Int) (targetColId : Nat) (cols : List Column) : List Column :=
  match removeFirst itemId cols with
  | (some found, cols') => addToTarget targetColId found cols'
  | (none, _) => cols

/-- Fold a sequence of quick-move calls over a roster state, first call
first. -/
def applyMoves (moves : List (Int × Nat)) (cols : List Column) : List Column :=
  moves.foldl (fun cs m => moveItemToColumn m.1 m.2 cs) cols

/-- Concatenation of all items of all columns, in column order. -/
def allItems : List Column → List DndItem
  | [] => []
  | c :: cs => c.items ++ allItems cs

/-- Ids of all items across all columns, in column order. -/
def allIds (cols : List Column) : List Int :=
  (allItems cols).map (fun i => i.id)

/-- Ids of the active players, in input order; this is what seeds POOL. -/
def activeIds (players : List PlayerLite) : List Int :=
  ((players.filter (fun p => p.active)).map (fun p => p.id))

/-- Value held by a score input binding (`let redScore = $state<number |
''>('')`, plus the free-text values the spec's validator must reject):
either a finite number, a number-typed non-finite value (`NaN`), or a raw
string (the untouched input is the string `""`). -/
inductive ScoreInput where
  | num (n : Int)
  | nan
  | str (s : String)
deriving Repr, DecidableEq

/-- Decimal-digit accumulator for `jsNumberOfString`: folds a character
list into a natural number, failing on the first non-digit. -/
def digitsToNat (cs : List Char) : Option Nat :=
  cs.foldl (fun acc? c =>
    acc?.bind (fun acc => if c.isDigit then some (acc * 10 + (c.toNat - 48)) else none))
    (some 0)

/-- Models JS `Number(s)` on the strings a score input can hold: the empty
string coerces to `0`, a possibly `-`-signed run of decimal digits to the
corresponding integer, and any other text to `NaN`, represented as `none`. -/
def jsNumberOfString (s : String) : Option Int :=
  match s.data with
  | [] => some 0
  | '-' :: c :: cs => (digitsToNat (c :: cs)).map (fun n => -(n : Int))
  | c :: cs => (digitsToNat (c :: cs)).map (fun n => (n : Int))

/-- Models `const r = typeof redScore === 'number' ? redScore :
Number(redScore)` followed by the `Number.isFinite(r)` test: `some` is a
finite numeric result, `none` a non-finite one. -/
def coerceScore : ScoreInput → Option Int
  | .num n => some n
  | .nan => none
  | .str s => jsNumberOfString s

/-- Validation failures of `submitScore`, named as in the specification;
the red column is TEAM_A and the blue column is TEAM_B.
`TEAMS_NOT_INITIALIZED` is the defensive `if (!redCol || !blueCol)` branch,
unreachable on a real roster. -/
inductive SubmitError where
  | INVALID_SCORE
  | TEAMS_NOT_INITIALIZED
  | BOTH_TEAMS_EMPTY
  | TEAM_A_EMPTY
  | TEAM_B_EMPTY
deriving Repr, DecidableEq

/-- Payload entry `type TeamCreatePayload = { player_id; team_number }`. -/
structure TeamCreatePayload where
  player_id : Int
  team_number : Nat
deriving Repr, DecidableEq

/-- Payload `type GameCreatePayload = { result_team1; result_team2; teams }`. -/
structure GameCreatePayload where
  result_team1 : Int
  result_team2 : Int
  teams : List TeamCreatePayload
deriving Repr, DecidableEq

/-- Validation and payload construction of `submitScore`
(create/+page.svelte lines 112-148): coerce both scores and require them
finite, require both team columns present, reject empty teams in the order
both-empty, red-empty, blue-empty, and otherwise build the payload with
every red item as team 1 followed by every blue item as team 2, each in
column order. An `error` result is an early `return` before the network
call, so the roster and the score inputs are left untouched. -/
def submitScore (cols : List Column) (redScore blueScore : ScoreInput) :
    Except SubmitError GameCreatePayload :=
  match coerceScore redScore, coerceScore blueScore with
  | some r, some b =>
    match cols.find? (fun c => c.id == COL_RED), cols.find? (fun c => c.id == COL_BLUE) with
    | some redCol, some blueCol =>
      if redCol.items.length = 0 && blueCol.items.length = 0 then
        .error .BOTH_TEAMS_EMPTY
      else if redCol.items.length = 0 then
        .error .TEAM_A_EMPTY
      else if blueCol.items.length = 0 then
        .error .TEAM_B_EMPTY
      else
        .ok { result_team1 := r, result_team2 := b,
              teams := redCol.items.map (fun i => { player_id := i.id, team_number := 1 })
                ++ blueCol.items.map (fun i => { player_id := i.id, team_number := 2 }) }
    | _, _ => .error .TEAMS_NOT_INITIALIZED
  | _, _ => .error .INVALID_SCORE

/-- Rating snapshot carried by each leaderboard player:
`rating: { mu_monthly, sigma_monthly, mu_yearly, sigma_yearly, mu_overall,
sigma_overall }`. -/
structure Rating where
  mu_monthly : Rat
  sigma_monthly : Rat
  mu_yearly : Rat
  sigma_yearly : Rat
  mu_overall : Rat
  sigma_overall : Rat
deriving Repr, DecidableEq

/-- Raw leaderboard player as consumed by the load function:
`{ player_name, active, wins, games_played, rating }`. -/
structure RawPlayer where
  player_name : String
  active : Bool
  wins : Int
  games_played : Int
  rating : Rating
deriving Repr, DecidableEq

/-- Display row `type PlayerRow = { name; wins; losses; elo }`. -/
structure PlayerRow where
  name : String
  wins : Int
  losses : Int
  elo : Int
deriving Repr, DecidableEq

/-- Scope `type Scope = 'monthly' | 'yearly' | 'overall'`. -/
inductive Scope where
  | monthly
  | yearly
  | overall
deriving Repr, DecidableEq

/-- Default scope `const DEFAULT_SCOPE: Scope = 'yearly'`. -/
def DEFAULT_SCOPE : Scope := .yearly

/-- Models `.toLowerCase()` at the character-list level (string equality in
JS is pointwise character equality). -/
def jsToLower (s : String) : List Char :=
  s.data.map Char.toLower

/-- Scope resolution of the leaderboard load (leaderboard/+page.ts lines
12-13): lowercase the `scope` query parameter (absent reads as `''`) and
fall back to the default unless it is one of the three scope literals. -/
def resolveScope (q : Option String) : Scope :=
  let s := jsToLower (q.getD "")
  if s = "monthly".data then .monthly
  else if s = "yearly".data then .yearly
  else if s = "overall".data then .overall
  else DEFAULT_SCOPE

/-- Scope-dependent mu selection (leaderboard/+page.ts lines 24-27). -/
def selectMu (scope : Scope) (r : Rating) : Rat :=
  match scope with
  | .monthly => r.mu_monthly
  | .yearly => r.mu_yearly
  | .overall => r.mu_overall

/-- Scope-dependent sigma selection (leaderboard/+page.ts lines 29-32);
computed by the load function and then unused by the produced row. -/
def selectSigma (scope : Scope) (r : Rating) : Rat :=
  match scope with
  | .monthly => r.sigma_monthly
  | .yearly => r.sigma_yearly
  | .overall => r.sigma_overall

/-- Models `x || 0` applied to a finite JS number: the only falsy finite
number is `0`, so the result equals `x`. -/
def orZero (x : Rat) : Rat :=
  if x = 0 then 0 else x

/-- Models `Math.round` on a finite value: round half toward positive
infinity. -/
def jsRound (x : Rat) : Int :=
  Int.floor (x + 1 / 2)

/-- Row construction of the leaderboard load (leaderboard/+page.ts lines
22-43): select mu by scope, coerce with `Number(mu) || 0`, keep `wins`,
derive `losses = games_played - wins`, and display `elo = Math.round(muNum)`. -/
def toRow (scope : Scope) (p : RawPlayer) : PlayerRow :=
  let mu := selectMu scope p.rating
  let muNum := orZero mu
  { name := p.player_name,
    wins := p.wins,
    losses := p.games_played - p.wins,
    elo := jsRound muNum }

/-- Ordering used by the leaderboard sort: the comparator
`(a, b) => b.elo - a.elo` puts `a` no later than `b` exactly when
`b.elo ≤ a.elo`. -/
def eloGE (a b : PlayerRow) : Prop := b.elo ≤ a.elo

instance : DecidableRel eloGE := fun a b => inferInstanceAs (Decidable (b.elo ≤ a.elo))

instance : IsTotal PlayerRow eloGE := ⟨fun a b => Int.le_total b.elo a.elo⟩

instance : IsTrans PlayerRow eloGE := ⟨fun _ _ _ h1 h2 => le_trans h2 h1⟩

/-- Models `.sort((a, b) => b.elo - a.elo)`. `Array.prototype.sort` is
required by ECMA-262 to be stable, and the comparator induces the total
preorder `eloGE`; every stable sort under a total preorder produces the same
output, realized here by insertion sort. -/
def sortRowsDesc (rows : List PlayerRow) : List PlayerRow :=
  rows.insertionSort eloGE

/-- Leaderboard load (leaderboard/+page.ts lines 11-47): resolve the scope
from the query parameter, filter the raw players to `active === true`, map
each to a display row for that scope, and sort descending by elo. -/
def leaderboardLoad (q : Option String) (raw : List RawPlayer) :
    Scope × List PlayerRow :=
  let scope := resolveScope q
  let filtered := raw.filter (fun p => p.active == true)
  (scope, sortRowsDesc (filtered.map (toRow scope)))

/-- Observable events of one `submitScore` run that passes validation. -/
inductive SubmitEvent where
  | guardSet
  | fetchStart
  | guardRelease
  | fetchSettle
deriving Repr, DecidableEq

/-- Events emitted by the synchronous portion of `submitScore` after
validation passes (create/+page.svelte lines 150-174): `submitting = true`
(`guardSet`); `toast.promise(...)` starts the inner async function, which
runs until its first `await fetch(...)` and issues the request
(`fetchStart`); `toast.promise` is not awaited, so control returns to
`submitScore` at once and the `finally` block runs `submitting = false`
(`guardRelease`) before the function returns. -/
def submitSyncEvents : List SubmitEvent :=
  [.guardSet, .fetchStart, .guardRelease]

/-- Events delivered in later event-loop turns: the fetch promise settles
(`fetchSettle`). Under JS run-to-completion semantics a promise settlement
is observed only after the currently running synchronous code has finished,
so every event of `submitSyncEvents` precedes it. -/
def submitAsyncEvents : List SubmitEvent :=
  [.fetchSettle]

/-- Full event trace of one validated submission. -/
def submitFlightTrace : List SubmitEvent :=
  submitSyncEvents ++ submitAsyncEvents

end Babyfoot

namespace Babyfoot

/-! ### Structural lemmas about the quick-move operation -/

theorem spliceFirst_eq_none {p : DndItem → Bool} {l : List DndItem}
    (h : ∀ x ∈ l, p x = false) : spliceFirst p l = none := by
  induction l with
  | nil => rfl
  | cons x xs ih =>
    have hx := h x (by simp)
    simp [spliceFirst, hx, ih (fun y hy => h y (by simp [hy]))]

theorem spliceFirst_eq_some {p : DndItem → Bool} {l : List DndItem}
    {it : DndItem} {rest : List DndItem}
    (h : spliceFirst p l = some (it, rest)) :
    ∃ l1 l2, l = l1 ++ it :: l2 ∧ rest = l1 ++ l2 ∧
      (∀ x ∈ l1, p x = false) ∧ p it = true := by
  induction l generalizing rest with
  | nil => simp [spliceFirst] at h
  | cons x xs ih =>
    by_cases hx : p x
    · rw [spliceFirst, if_pos hx] at h
      simp only [Option.some.injEq, Prod.mk.injEq] at h
      obtain ⟨rfl, rfl⟩ := h
      exact ⟨[], xs, by simp, by simp, by simp, hx⟩
    · rw [spliceFirst, if_neg hx] at h
      rcases ho : spliceFirst p xs with _ | ⟨it0, rest0⟩
      · rw [ho] at h; simp at h
      · rw [ho] at h
        simp only [Option.map_some', Option.some.injEq, Prod.mk.injEq] at h
        obtain ⟨rfl, h2⟩ := h
        subst h2
        obtain ⟨l1, l2, hxs, hr, hl1, hit⟩ := ih ho
        refine ⟨x :: l1, l2, by simp [hxs], by simp [hr], ?_, hit⟩
        intro y hy
        rcases List.mem_cons.mp hy with rfl | hy
        · simpa using hx
        · exact hl1 y hy

theorem spliceFirst_append {p : DndItem → Bool} {l1 l2 : List DndItem} {it : DndItem}
    (h1 : ∀ x ∈ l1, p x = false) (h2 : p it = true) :
    spliceFirst p (l1 ++ it :: l2) = some (it, l1 ++ l2) := by
  induction l1 with
  | nil => simp [spliceFirst, h2]
  | cons x xs ih =>
    have hx := h1 x (by simp)
    simp [spliceFirst, hx, ih (fun y hy => h1 y (by simp [hy]))]

theorem spliceFirst_none_forall {p : DndItem → Bool} {l : List DndItem}
    (h : spliceFirst p l = none) : ∀ x ∈ l, p x = false := by
  induction l with
  | nil => simp
  | cons x xs ih =>
    by_cases hx : p x
    · rw [spliceFirst, if_pos hx] at h; exact absurd h (by simp)
    · rw [spliceFirst, if_neg hx] at h
      intro y hy
      rcases List.mem_cons.mp hy with rfl | hy
      · simpa using hx
      · exact ih (by simpa using h) y hy

theorem removeFirst_eq_none {itemId : Int} {cols : List Column}
    (h : ∀ i ∈ allItems cols, (i.id == itemId) = false) :
    removeFirst itemId cols = (none, cols) := by
  induction cols with
  | nil => rfl
  | cons c cs ih =>
    have hc : spliceFirst (fun i => i.id == itemId) c.items = none :=
      spliceFirst_eq_none (fun x hx => h x (by simp [allItems, hx]))
    have hrest := ih (fun i hi => h i (by simp [allItems, hi]))
    simp [removeFirst, hc, hrest]

theorem removeFirst_eq_some {itemId : Int} {cols cols' : List Column} {it : DndItem}
    (h : removeFirst itemId cols = (some it, cols')) :
    ∃ P c post l1 l2,
      cols = P ++ c :: post ∧
      c.items = l1 ++ it :: l2 ∧
      cols' = P ++ { c with items := l1 ++ l2 } :: post ∧
      (∀ c' ∈ P, ∀ i ∈ c'.items, (i.id == itemId) = false) ∧
      (∀ x ∈ l1, (x.id == itemId) = false) ∧
      (it.id == itemId) = true := by
  induction cols generalizing cols' with
  | nil => simp [removeFirst] at h
  | cons c cs ih =>
    rcases ho : spliceFirst (fun i => i.id == itemId) c.items with _ | ⟨it0, rest0⟩
    · rw [removeFirst, ho] at h
      simp only [Prod.mk.injEq] at h
      obtain ⟨h1, h2⟩ := h
      rcases hrec : removeFirst itemId cs with ⟨found?, cs'⟩
      rw [hrec] at h1 h2
      simp only at h1 h2
      subst h1
      obtain ⟨P, c0, post, l1, l2, hcs, hcitems, hcs', hP, hl1, hit⟩ := ih hrec
      refine ⟨c :: P, c0, post, l1, l2, by simp [hcs], hcitems, by simp [← h2, hcs'], ?_, hl1, hit⟩
      intro c' hc' i hi
      rcases List.mem_cons.mp hc' with rfl | hc'
      · exact spliceFirst_none_forall ho i hi
      · exact hP c' hc' i hi
    · rw [removeFirst, ho] at h
      simp only [Prod.mk.injEq] at h
      obtain ⟨h1, h2⟩ := h
      obtain rfl : it0 = it := by simpa using h1
      obtain ⟨l1, l2, hitems, hrest, hl1, hit⟩ := spliceFirst_eq_some ho
      exact ⟨[], c, cs, l1, l2, by simp, hitems, by simp [← h2, hrest], by simp, hl1, hit⟩

theorem removeFirst_append {itemId : Int} {P post : List Column} {c : Column}
    {l1 l2 : List DndItem} {it : DndItem}
    (hP : ∀ c' ∈ P, ∀ i ∈ c'.items, (i.id == itemId) = false)
    (hc : c.items = l1 ++ it :: l2)
    (h1 : ∀ x ∈ l1, (x.id == itemId) = false)
    (hit : (it.id == itemId) = true) :
    removeFirst itemId (P ++ c :: post) =
      (some it, P ++ { c with items := l1 ++ l2 } :: post) := by
  induction P with
  | nil =>
    have : spliceFirst (fun i => i.id == itemId) c.items = some (it, l1 ++ l2) := by
      rw [hc]; exact spliceFirst_append h1 hit
    simp [removeFirst, this]
  | cons c' P' ih =>
    have hsp : spliceFirst (fun i => i.id == itemId) c'.items = none :=
      spliceFirst_eq_none (fun x hx => hP c' (by simp) x hx)
    have := ih (fun c0 h0 i hi => hP c0 (by simp [h0]) i hi)
    simp [removeFirst, hsp, this]

theorem addToTarget_eq_of_no_target {t : Nat} {it : DndItem} {cols : List Column}
    (h : ∀ c ∈ cols, (c.id == t) = false) :
    addToTarget t it cols = cols := by
  induction cols with
  | nil => rfl
  | cons c cs ih =>
    have hc := h c (by simp)
    simp [addToTarget, hc, ih (fun c' h' => h c' (by simp [h']))]

theorem addToTarget_append {t : Nat} {it : DndItem} {P post : List Column} {c : Column}
    (hP : ∀ c' ∈ P, (c'.id == t) = false)
    (hc : (c.id == t) = true) :
    addToTarget t it (P ++ c :: post) =
      P ++ (if c.items.any (fun i => i.id == it.id) then c
            else { c with items := c.items ++ [it] }) :: post := by
  induction P with
  | nil => simp [addToTarget, hc]
  | cons c' P' ih =>
    have h' := hP c' (by simp)
    simp [addToTarget, h', ih (fun c0 h0 => hP c0 (by simp [h0]))]

theorem allItems_append (P Q : List Column) :
    allItems (P ++ Q) = allItems P ++ allItems Q := by
  induction P with
  | nil => simp [allItems]
  | cons c cs ih => simp [allItems, ih]

theorem allIds_append (P Q : List Column) :
    allIds (P ++ Q) = allIds P ++ allIds Q := by
  simp [allIds, allItems_append]

theorem allIds_cons (c : Column) (cs : List Column) :
    allIds (c :: cs) = c.items.map (fun i => i.id) ++ allIds cs := by
  simp [allIds, allItems]

theorem mem_allIds {cols : List Column} {c : Column} {i : DndItem}
    (hc : c ∈ cols) (hi : i ∈ c.items) : i.id ∈ allIds cols := by
  induction cols with
  | nil => simp at hc
  | cons c0 cs ih =>
    rw [allIds_cons]
    rcases List.mem_cons.mp hc with rfl | hc
    · exact List.mem_append.mpr (Or.inl (List.mem_map.mpr ⟨i, hi, rfl⟩))
    · exact List.mem_append.mpr (Or.inr (ih hc))

theorem target_split (t : Nat) (cols : List Column) :
    (∀ c ∈ cols, (c.id == t) = false) ∨
    ∃ P ct post, cols = P ++ ct :: post ∧
      (∀ c ∈ P, (c.id == t) = false) ∧ (ct.id == t) = true := by
  induction cols with
  | nil => exact Or.inl (by simp)
  | cons c cs ih =>
    by_cases hc : (c.id == t) = true
    · exact Or.inr ⟨[], c, cs, by simp, by simp, hc⟩
    · rcases ih with h | ⟨P, ct, post, hcs, hP, hct⟩
      · refine Or.inl (fun c' h' => ?_)
        rcases List.mem_cons.mp h' with rfl | h'
        · simpa using hc
        · exact h c' h'
      · refine Or.inr ⟨c :: P, ct, post, by simp [hcs], fun c' h' => ?_, hct⟩
        rcases List.mem_cons.mp h' with rfl | h'
        · simpa using hc
        · exact hP c' h'

theorem removeFirst_perm {itemId : Int} {cols cols' : List Column} {it : DndItem}
    (h : removeFirst itemId cols = (some it, cols')) :
    List.Perm (allIds cols) (it.id :: allIds cols') ∧
    cols'.map (fun c => c.id) = cols.map (fun c => c.id) := by
  obtain ⟨P, c, post, l1, l2, hcols, hcitems, hcols', hP, hl1, hit⟩ := removeFirst_eq_some h
  subst hcols; subst hcols'
  constructor
  · have e1 : allIds (P ++ c :: post) =
        (allIds P ++ l1.map (fun i => i.id)) ++
          it.id :: (l2.map (fun i => i.id) ++ allIds post) := by
      simp [allIds_append, allIds_cons, hcitems]
    have e2 : allIds (P ++ { c with items := l1 ++ l2 } :: post) =
        (allIds P ++ l1.map (fun i => i.id)) ++
          (l2.map (fun i => i.id) ++ allIds post) := by
      simp [allIds_append, allIds_cons]
    rw [e1, e2]
    exact List.perm_middle
  · simp

theorem addToTarget_perm_of_fresh {t : Nat} {it : DndItem} {cols : List Column}
    (hmem : ∃ c ∈ cols, (c.id == t) = true)
    (hfresh : it.id ∉ allIds cols) :
    List.Perm (allIds (addToTarget t it cols)) (it.id :: allIds cols) ∧
    (addToTarget t it cols).map (fun c => c.id) = cols.map (fun c => c.id) := by
  rcases target_split t cols with hnone | ⟨P, ct, post, hcols, hP, hct⟩
  · obtain ⟨c, hc, hct⟩ := hmem
    exact absurd (hnone c hc) (by simp [hct])
  · subst hcols
    have hany : ct.items.any (fun i => i.id == it.id) = false := by
      rw [List.any_eq_false]
      intro x hx
      have : x.id ∈ allIds (P ++ ct :: post) := mem_allIds (by simp) hx
      intro hbe
      exact hfresh (by rwa [← (by simpa using hbe : x.id = it.id)])
    rw [addToTarget_append hP hct, hany]
    simp only [Bool.false_eq_true, if_false]
    constructor
    · have e1 : allIds (P ++ { ct with items := ct.items ++ [it] } :: post) =
          (allIds P ++ ct.items.map (fun i => i.id)) ++ it.id :: allIds post := by
        simp [allIds_append, allIds_cons]
      have e2 : allIds (P ++ ct :: post) =
          (allIds P ++ ct.items.map (fun i => i.id)) ++ allIds post := by
        simp [allIds_append, allIds_cons]
      rw [e1, e2]
      exact List.perm_middle
    · simp

theorem moveItem_perm {cols : List Column} {itemId : Int} {t : Nat}
    (hnd : (allIds cols).Nodup)
    (ht : ∃ c ∈ cols, (c.id == t) = true) :
    List.Perm (allIds (moveItemToColumn itemId t cols)) (allIds cols) ∧
    (moveItemToColumn itemId t cols).map (fun c => c.id) = cols.map (fun c => c.id) := by
  rcases hrem : removeFirst itemId cols with ⟨found?, cols2⟩
  cases found? with
  | none =>
    simp only [moveItemToColumn, hrem]
    exact ⟨.refl _, trivial⟩
  | some it =>
    obtain ⟨hperm, hids⟩ := removeFirst_perm hrem
    have hfresh : it.id ∉ allIds cols2 := (List.nodup_cons.mp (hperm.nodup hnd)).1
    have ht2 : ∃ c ∈ cols2, (c.id == t) = true := by
      obtain ⟨c, hc, hct⟩ := ht
      have hmm : c.id ∈ cols2.map (fun c => c.id) := by
        rw [hids]; exact List.mem_map.mpr ⟨c, hc, rfl⟩
      obtain ⟨c', hc', he⟩ := List.mem_map.mp hmm
      exact ⟨c', hc', by rw [he]; exact hct⟩
    obtain ⟨hp2, hi2⟩ := addToTarget_perm_of_fresh ht2 hfresh
    simp only [moveItemToColumn, hrem]
    exact ⟨hp2.trans hperm.symm, hi2.trans hids⟩

theorem applyMoves_perm {moves : List (Int × Nat)} {cols : List Column}
    (hnd : (allIds cols).Nodup)
    (hids : cols.map (fun c => c.id) = [COL_PLAYERS, COL_RED, COL_BLUE])
    (hmv : ∀ m ∈ moves, m.2 = COL_PLAYERS ∨ m.2 = COL_RED ∨ m.2 = COL_BLUE) :
    List.Perm (allIds (applyMoves moves cols)) (allIds cols) ∧
    (applyMoves moves cols).map (fun c => c.id) = [COL_PLAYERS, COL_RED, COL_BLUE] := by
  induction moves generalizing cols with
  | nil => exact ⟨.refl _, hids⟩
  | cons m ms ih =>
    have htm : ∃ c ∈ cols, (c.id == m.2) = true := by
      have hmem : m.2 ∈ cols.map (fun c => c.id) := by
        rw [hids]
        rcases hmv m (by simp) with h | h | h <;> simp [h, COL_PLAYERS, COL_RED, COL_BLUE]
      obtain ⟨c, hc, he⟩ := List.mem_map.mp hmem
      exact ⟨c, hc, by simp [he]⟩
    obtain ⟨hp, hi⟩ := @moveItem_perm cols m.1 m.2 hnd htm
    have hnd' : (allIds (moveItemToColumn m.1 m.2 cols)).Nodup := hp.symm.nodup hnd
    obtain ⟨hp2, hi2⟩ := ih hnd' (hi.trans hids) (fun m' hm' => hmv m' (by simp [hm']))
    have happ : applyMoves (m :: ms) cols = applyMoves ms (moveItemToColumn m.1 m.2 cols) := by
      simp [applyMoves]
    rw [happ]
    exact ⟨hp2.trans hp, hi2⟩

theorem moveItem_resident_eq {cols : List Column} {t : Nat} {itemId : Int}
    {P Q : List Column} {tc : Column} {l1 l2 : List DndItem} {it : DndItem}
    (hnd : (allIds cols).Nodup)
    (hcols : cols = P ++ tc :: Q)
    (hP : ∀ c ∈ P, (c.id == t) = false)
    (htc : (tc.id == t) = true)
    (hitems : tc.items = l1 ++ it :: l2)
    (hit : (it.id == itemId) = true) :
    moveItemToColumn itemId t cols = P ++ { tc with items := (l1 ++ l2) ++ [it] } :: Q := by
  subst hcols
  have e1 : allIds (P ++ tc :: Q) =
      (allIds P ++ l1.map (fun i => i.id)) ++
        it.id :: (l2.map (fun i => i.id) ++ allIds Q) := by
    simp [allIds_append, allIds_cons, hitems]
  have hnd2 : ((allIds P ++ l1.map (fun i => i.id)) ++
      it.id :: (l2.map (fun i => i.id) ++ allIds Q)).Nodup := by rwa [e1] at hnd
  have hnotmem : it.id ∉ (allIds P ++ l1.map (fun i => i.id)) ++
      (l2.map (fun i => i.id) ++ allIds Q) :=
    (List.nodup_cons.mp (List.perm_middle.nodup hnd2)).1
  have hnp : it.id ∉ allIds P := fun h =>
    hnotmem (List.mem_append.mpr (Or.inl (List.mem_append.mpr (Or.inl h))))
  have hnl1 : it.id ∉ l1.map (fun i => i.id) := fun h =>
    hnotmem (List.mem_append.mpr (Or.inl (List.mem_append.mpr (Or.inr h))))
  have hnl2 : it.id ∉ l2.map (fun i => i.id) := fun h =>
    hnotmem (List.mem_append.mpr (Or.inr (List.mem_append.mpr (Or.inl h))))
  have hideq : it.id = itemId := by simpa using hit
  have hPitems : ∀ c ∈ P, ∀ i ∈ c.items, (i.id == itemId) = false := by
    intro c hc i hi
    have hmem : i.id ∈ allIds P := mem_allIds hc hi
    rw [beq_eq_false_iff_ne]
    intro he
    exact hnp (by rw [hideq]; exact he ▸ hmem)
  have hl1f : ∀ x ∈ l1, (x.id == itemId) = false := by
    intro x hx
    rw [beq_eq_false_iff_ne]
    intro he
    exact hnl1 (List.mem_map.mpr ⟨x, hx, he.trans hideq.symm⟩)
  have hrem := @removeFirst_append itemId P Q tc l1 l2 it hPitems hitems hl1f hit
  simp only [moveItemToColumn, hrem]
  have htc' : (({ tc with items := l1 ++ l2 } : Column).id == t) = true := by simpa using htc
  rw [addToTarget_append hP htc']
  have hany : (({ tc with items := l1 ++ l2 } : Column).items.any
      (fun i => i.id == it.id)) = false := by
    simp only
    rw [List.any_eq_false]
    intro x hx hbe
    rcases List.mem_append.mp hx with hx | hx
    · exact hnl1 (List.mem_map.mpr ⟨x, hx, by simpa using hbe⟩)
    · exact hnl2 (List.mem_map.mpr ⟨x, hx, by simpa using hbe⟩)
  rw [hany]
  simp

theorem moveItem_idem_aux {cols : List Column} {itemId : Int} {t : Nat}
    (hnd : (allIds cols).Nodup) :
    moveItemToColumn itemId t (moveItemToColumn itemId t cols) =
      moveItemToColumn itemId t cols := by
  rcases hrem : removeFirst itemId cols with ⟨found?, cols2⟩
  cases found? with
  | none => simp only [moveItemToColumn, hrem]
  | some it =>
    obtain ⟨hperm, hids⟩ := removeFirst_perm hrem
    have hfresh : it.id ∉ allIds cols2 := (List.nodup_cons.mp (hperm.nodup hnd)).1
    have hit : (it.id == itemId) = true := by
      obtain ⟨P, c, post, l1, l2, hcols, hcitems, hcols', hPf, hl1, hitb⟩ :=
        removeFirst_eq_some hrem
      exact hitb
    have hideq : it.id = itemId := by simpa using hit
    rcases target_split t cols2 with hnone | ⟨P, ct, post, hcols2, hP, hct⟩
    · have h1 : moveItemToColumn itemId t cols = cols2 := by
        simp only [moveItemToColumn, hrem]
        exact addToTarget_eq_of_no_target hnone
      rw [h1]
      have hnone2 : ∀ i ∈ allItems cols2, (i.id == itemId) = false := by
        intro i hi
        rw [beq_eq_false_iff_ne]
        intro he
        have hmem : i.id ∈ allIds cols2 := List.mem_map.mpr ⟨i, hi, rfl⟩
        exact hfresh (by rw [hideq]; exact he ▸ hmem)
      simp only [moveItemToColumn, removeFirst_eq_none hnone2]
    · subst hcols2
      have hany : ct.items.any (fun i => i.id == it.id) = false := by
        rw [List.any_eq_false]
        intro x hx hbe
        have hmem : x.id ∈ allIds (P ++ ct :: post) := mem_allIds (by simp) hx
        exact hfresh (by rw [← (by simpa using hbe : x.id = it.id)]; exact hmem)
      have h1 : moveItemToColumn itemId t cols =
          P ++ { ct with items := ct.items ++ [it] } :: post := by
        simp only [moveItemToColumn, hrem]
        rw [addToTarget_append hP hct, hany]
        simp
      rw [h1]
      have hndR : (allIds (P ++ { ct with items := ct.items ++ [it] } :: post)).Nodup := by
        have hpR : List.Perm
            (allIds (P ++ { ct with items := ct.items ++ [it] } :: post))
            (allIds cols) := by
          rw [← h1]
          have hmm : ct.id ∈ cols.map (fun c => c.id) := by
            rw [← hids]
            exact List.mem_map.mpr
              ⟨ct, List.mem_append.mpr (Or.inr (List.mem_cons_self ct post)), rfl⟩
          obtain ⟨c, hc, he⟩ := List.mem_map.mp hmm
          exact (moveItem_perm hnd ⟨c, hc, by rw [he]; exact hct⟩).1
        exact hpR.symm.nodup hnd
      have h2 := @moveItem_resident_eq
        (P ++ { ct with items := ct.items ++ [it] } :: post) t itemId P post
        { ct with items := ct.items ++ [it] } ct.items [] it
        hndR rfl hP (by simpa using hct) (by simp) hit
      rw [h2]
      simp

/-! ### Helper lemmas for validation and the leaderboard -/

theorem submitScore_eq (p r bl : Column) (red blue : ScoreInput)
    (hp : p.id = COL_PLAYERS) (hr : r.id = COL_RED) (hbl : bl.id = COL_BLUE) :
    submitScore [p, r, bl] red blue =
      match coerceScore red, coerceScore blue with
      | some x, some y =>
        if r.items.length = 0 && bl.items.length = 0 then .error .BOTH_TEAMS_EMPTY
        else if r.items.length = 0 then .error .TEAM_A_EMPTY
        else if bl.items.length = 0 then .error .TEAM_B_EMPTY
        else .ok { result_team1 := x, result_team2 := y,
                   teams := r.items.map (fun i => { player_id := i.id, team_number := 1 })
                     ++ bl.items.map (fun i => { player_id := i.id, team_number := 2 }) }
      | _, _ => .error .INVALID_SCORE := by
  have hfr : List.find? (fun c => c.id == COL_RED) [p, r, bl] = some r := by
    simp [List.find?, hp, hr, COL_PLAYERS, COL_RED]
  have hfb : List.find? (fun c => c.id == COL_BLUE) [p, r, bl] = some bl := by
    simp [List.find?, hp, hr, hbl, COL_PLAYERS, COL_RED, COL_BLUE]
  rcases hx : coerceScore red with _ | x <;> rcases hy : coerceScore blue with _ | y <;>
    simp [submitScore, hfr, hfb, hx, hy]

theorem submitScore_ok_eq (p r bl : Column) (red blue : ScoreInput) (x y : Int)
    (hp : p.id = COL_PLAYERS) (hr : r.id = COL_RED) (hbl : bl.id = COL_BLUE)
    (hred : coerceScore red = some x) (hblue : coerceScore blue = some y)
    (hA : r.items ≠ []) (hB : bl.items ≠ []) :
    submitScore [p, r, bl] red blue =
      .ok { result_team1 := x, result_team2 := y,
            teams := r.items.map (fun i => { player_id := i.id, team_number := 1 })
              ++ bl.items.map (fun i => { player_id := i.id, team_number := 2 }) } := by
  rw [submitScore_eq p r bl red blue hp hr hbl, hred, hblue]
  have hA' : r.items.length ≠ 0 := by simpa [List.length_eq_zero] using hA
  have hB' : bl.items.length ≠ 0 := by simpa [List.length_eq_zero] using hB
  simp [hA', hB']

theorem orZero_eq (x : Rat) : orZero x = x := by
  by_cases h : x = 0 <;> simp [orZero, h]

theorem toRow_elo (scope : Scope) (p : RawPlayer) :
    (toRow scope p).elo = jsRound (selectMu scope p.rating) := by
  simp [toRow, orZero_eq]

theorem orderedInsert_filter_pos (v : Int) (x : PlayerRow) (l : List PlayerRow)
    (hx : x.elo = v) :
    (l.orderedInsert eloGE x).filter (fun row => row.elo == v) =
      x :: l.filter (fun row => row.elo == v) := by
  induction l with
  | nil => simp [List.orderedInsert, hx]
  | cons b l ih =>
    by_cases hb : eloGE x b
    · rw [List.orderedInsert_of_le eloGE l hb]
      simp [List.filter_cons, hx]
    · simp only [List.orderedInsert]
      rw [if_neg hb]
      have hbv : (b.elo == v) = false := by
        rw [beq_eq_false_iff_ne]
        intro he
        exact hb (by simp [eloGE, he, hx])
      simp [List.filter_cons, hbv, ih]

theorem orderedInsert_filter_neg (v : Int) (x : PlayerRow) (l : List PlayerRow)
    (hx : (x.elo == v) = false) :
    (l.orderedInsert eloGE x).filter (fun row => row.elo == v) =
      l.filter (fun row => row.elo == v) := by
  induction l with
  | nil => simp [List.orderedInsert, hx]
  | cons b l ih =>
    by_cases hb : eloGE x b
    · rw [List.orderedInsert_of_le eloGE l hb]
      simp [List.filter_cons, hx]
    · simp only [List.orderedInsert]
      rw [if_neg hb]
      by_cases hbv : (b.elo == v) = true <;> simp [List.filter_cons, hbv, ih]

theorem sortRowsDesc_filter (v : Int) (l : List PlayerRow) :
    (sortRowsDesc l).filter (fun row => row.elo == v) =
      l.filter (fun row => row.elo == v) := by
  unfold sortRowsDesc
  induction l with
  | nil => rfl
  | cons x l ih =>
    simp only [List.insertionSort]
    by_cases hx : x.elo = v
    · rw [orderedInsert_filter_pos v x _ hx, ih]
      simp [List.filter_cons, hx]
    · have hx' : (x.elo == v) = false := by rw [beq_eq_false_iff_ne]; exact hx
      rw [orderedInsert_filter_neg v x _ hx', ih]
      simp [List.filter_cons, hx']

/-! ### Concrete fixtures used by witnesses and counterexamples -/

def exItem1 : DndItem := { id := 1, name := "Alice", color := some "red" }

def exItem2 : DndItem := { id := 2, name := "Bob", color := some "blue" }

def exPoolCol : Column :=
  { id := COL_PLAYERS, name := "Joueurs", cls := "players", items := [exItem1, exItem2] }

def exRedCol : Column :=
  { id := COL_RED, name := "Equipe rouge", cls := "team-red", items := [] }

def exBlueCol : Column :=
  { id := COL_BLUE, name := "Equipe bleue", cls := "team-blue", items := [] }

def exRoster : List Column := [exPoolCol, exRedCol, exBlueCol]

def exPlayers : List PlayerLite :=
  [ { id := 1, player_name := "Alice", player_color := "red", active := true },
    { id := 2, player_name := "Bob", player_color := "blue", active := true },
    { id := 3, player_name := "Carl", player_color := "green", active := false } ]

/-! ### Claim theorems -/

/-- C1: for every initial roster built from the active-player list (whose ids
are unique, as the data model requires) and every sequence of `moveItem`
calls whose targets are POOL, TEAM_A or TEAM_B, the multiset of item ids
across the three columns equals the original active-player id set, with no
id duplicated and none lost. The statement quantifies over all valid move
sequences; since every prefix of a valid sequence is itself a valid
sequence, this covers the state after each individual call. -/
theorem rosterMoveInvariant (players : List PlayerLite) (moves : List (Int × Nat))
    (hmv : ∀ m ∈ moves, m.2 = COL_PLAYERS ∨ m.2 = COL_RED ∨ m.2 = COL_BLUE)
    (hnd : (activeIds players).Nodup) :
    List.Perm (allIds (applyMoves moves (initColumns players))) (activeIds players) ∧
    (allIds (applyMoves moves (initColumns players))).Nodup := by
  have hinit : allIds (initColumns players) = activeIds players := by
    simp [initColumns, allIds, allItems, activeIds]
  have hids : (initColumns players).map (fun c => c.id) =
      [COL_PLAYERS, COL_RED, COL_BLUE] := by
    simp [initColumns]
  obtain ⟨hp, _⟩ := applyMoves_perm (by rw [hinit]; exact hnd) hids hmv
  rw [hinit] at hp
  exact ⟨hp, hp.symm.nodup hnd⟩

/-- Witness for C1 at a concrete three-player list and a three-move
sequence. -/
theorem rosterMoveInvariant_witness :
    List.Perm (allIds (applyMoves [(1, COL_RED), (2, COL_BLUE), (1, COL_BLUE)]
        (initColumns exPlayers))) (activeIds exPlayers) ∧
    (allIds (applyMoves [(1, COL_RED), (2, COL_BLUE), (1, COL_BLUE)]
        (initColumns exPlayers))).Nodup :=
  rosterMoveInvariant exPlayers [(1, COL_RED), (2, COL_BLUE), (1, COL_BLUE)]
    (by decide) (by decide)

/-- C4 counterexample: in the state where the pool holds Alice then Bob,
moving Alice to the pool (her current column) is not a no-op — she is
spliced out and re-appended, so the pool order flips to Bob then Alice. -/
theorem moveToOwnColumnNotNoop :
    moveItemToColumn 1 COL_PLAYERS exRoster ≠ exRoster := by decide

/-- C4 (amended): moving an item to the column that already holds it is not
a state no-op in general; the item is spliced out of its position and
re-appended at the end of its column. Precisely, on a roster with distinct
item ids, if the first column whose id is the target holds the item at some
position, the call leaves every other column unchanged and rewrites the
holder's sequence to the same items with the moved item last — so each
column's membership is preserved and the call is a state no-op exactly when
the item was already last. -/
theorem moveResidentAppendsToEnd {cols : List Column} {t : Nat} {itemId : Int}
    {P Q : List Column} {tc : Column} {l1 l2 : List DndItem} {it : DndItem}
    (hnd : (allIds cols).Nodup)
    (hcols : cols = P ++ tc :: Q)
    (hP : ∀ c ∈ P, (c.id == t) = false)
    (htc : (tc.id == t) = true)
    (hitems : tc.items = l1 ++ it :: l2)
    (hit : (it.id == itemId) = true) :
    moveItemToColumn itemId t cols = P ++ { tc with items := (l1 ++ l2) ++ [it] } :: Q :=
  moveItem_resident_eq hnd hcols hP htc hitems hit

/-- Witness for the amended C4: moving Alice (id 1) to her own pool column
re-appends her after Bob. -/
theorem moveResidentAppendsToEnd_witness :
    moveItemToColumn 1 COL_PLAYERS exRoster =
      [{ exPoolCol with items := [exItem2, exItem1] }, exRedCol, exBlueCol] := by
  have h := @moveResidentAppendsToEnd exRoster COL_PLAYERS 1
    [] [exRedCol, exBlueCol] exPoolCol [] [exItem2] exItem1
    (by decide) rfl (by simp) (by decide) rfl (by decide)
  exact h.trans (by decide)

/-- C5: on every roster state whose item ids are unique across the three
columns (the Roster invariant), `moveItem(id, col)` is idempotent — calling
it twice in succession yields exactly the state of calling it once, for any
target column id, including ids that match no column. -/
theorem moveItemIdempotent (cols : List Column) (itemId : Int) (t : Nat)
    (hnd : (allIds cols).Nodup) :
    moveItemToColumn itemId t (moveItemToColumn itemId t cols) =
      moveItemToColumn itemId t cols :=
  moveItem_idem_aux hnd

/-- Witness for C5 at a concrete roster and move. -/
theorem moveItemIdempotent_witness :
    (allIds exRoster).Nodup ∧
    moveItemToColumn 1 COL_RED (moveItemToColumn 1 COL_RED exRoster) =
      moveItemToColumn 1 COL_RED exRoster :=
  ⟨by decide, moveItemIdempotent exRoster 1 COL_RED (by decide)⟩

/-- C2: on every roster (three columns with the POOL/RED/BLUE ids) and
score entry, validation blocks — `submitScore` takes an error branch, an
early return before the network call that leaves the roster and score entry
untouched — exactly when a score fails finite-number coercion or at least
one team is empty, and the error kind is decided in the order: non-finite
score gives INVALID_SCORE; otherwise both teams empty gives
BOTH_TEAMS_EMPTY; otherwise only the red team (TEAM_A) empty gives
TEAM_A_EMPTY; otherwise only the blue team (TEAM_B) empty gives
TEAM_B_EMPTY. -/
theorem submitValidationOrder (p r bl : Column) (red blue : ScoreInput)
    (hp : p.id = COL_PLAYERS) (hr : r.id = COL_RED) (hbl : bl.id = COL_BLUE) :
    ((∃ e, submitScore [p, r, bl] red blue = .error e) ↔
      (coerceScore red = none ∨ coerceScore blue = none ∨
        r.items = [] ∨ bl.items = [])) ∧
    (submitScore [p, r, bl] red blue = .error .INVALID_SCORE ↔
      (coerceScore red = none ∨ coerceScore blue = none)) ∧
    (submitScore [p, r, bl] red blue = .error .BOTH_TEAMS_EMPTY ↔
      (coerceScore red ≠ none ∧ coerceScore blue ≠ none ∧
        r.items = [] ∧ bl.items = [])) ∧
    (submitScore [p, r, bl] red blue = .error .TEAM_A_EMPTY ↔
      (coerceScore red ≠ none ∧ coerceScore blue ≠ none ∧
        r.items = [] ∧ bl.items ≠ [])) ∧
    (submitScore [p, r, bl] red blue = .error .TEAM_B_EMPTY ↔
      (coerceScore red ≠ none ∧ coerceScore blue ≠ none ∧
        r.items ≠ [] ∧ bl.items = [])) := by
  rw [submitScore_eq p r bl red blue hp hr hbl]
  rcases hx : coerceScore red with _ | x <;> rcases hy : coerceScore blue with _ | y <;>
    rcases hri : r.items with _ | ⟨i, is⟩ <;> rcases hbi : bl.items with _ | ⟨j, js⟩ <;>
      simp

/-- Witness for C2: with both teams staffed, a numeric red score and a
non-numeric blue score, the validator reports INVALID_SCORE. -/
theorem submitValidationOrder_witness :
    submitScore [exPoolCol, { exRedCol with items := [exItem1] },
        { exBlueCol with items := [exItem2] }] (.str "5") (.str "abc") =
      .error .INVALID_SCORE :=
  (submitValidationOrder exPoolCol { exRedCol with items := [exItem1] }
      { exBlueCol with items := [exItem2] } (.str "5") (.str "abc")
      rfl rfl rfl).2.1.mpr (Or.inr (by decide))

/-- C3: for every roster passing validation with coerced scores `x` and `y`,
the submission payload is exactly `result_team1 = x`, `result_team2 = y`,
and `teams` listing every red-column (TEAM_A) item as team 1 followed by
every blue-column (TEAM_B) item as team 2, each in column order. -/
theorem submitPayloadContract (p r bl : Column) (red blue : ScoreInput) (x y : Int)
    (hp : p.id = COL_PLAYERS) (hr : r.id = COL_RED) (hbl : bl.id = COL_BLUE)
    (hred : coerceScore red = some x) (hblue : coerceScore blue = some y)
    (hA : r.items ≠ []) (hB : bl.items ≠ []) :
    submitScore [p, r, bl] red blue =
      .ok { result_team1 := x, result_team2 := y,
            teams := r.items.map (fun i => { player_id := i.id, team_number := 1 })
              ++ bl.items.map (fun i => { player_id := i.id, team_number := 2 }) } :=
  submitScore_ok_eq p r bl red blue x y hp hr hbl hred hblue hA hB

/-- Witness for C3, the concrete example of the claim: TEAM_A = [{id: 1}],
TEAM_B = [{id: 2}], redScore 5, blueScore 3. -/
theorem submitPayloadContract_witness :
    submitScore [{ exPoolCol with items := [] }, { exRedCol with items := [exItem1] },
        { exBlueCol with items := [exItem2] }] (.num 5) (.num 3) =
      .ok { result_team1 := 5, result_team2 := 3,
            teams := [ { player_id := 1, team_number := 1 },
                       { player_id := 2, team_number := 2 } ] } := by
  have h := submitPayloadContract { exPoolCol with items := [] }
    { exRedCol with items := [exItem1] } { exBlueCol with items := [exItem2] }
    (.num 5) (.num 3) 5 3 rfl rfl rfl rfl rfl (by decide) (by decide)
  exact h.trans (congrArg Except.ok (by decide))

/-- C10: with both teams non-empty, an untouched (empty-string) score input
does not trigger INVALID_SCORE: JS `Number("")` is the finite number 0, so
submission proceeds and the payload carries 0 for that team. -/
theorem emptyScoreParsesToZero (p r bl : Column) (other : ScoreInput) (y : Int)
    (hp : p.id = COL_PLAYERS) (hr : r.id = COL_RED) (hbl : bl.id = COL_BLUE)
    (hother : coerceScore other = some y)
    (hA : r.items ≠ []) (hB : bl.items ≠ []) :
    coerceScore (.str "") = some 0 ∧
    submitScore [p, r, bl] (.str "") other =
      .ok { result_team1 := 0, result_team2 := y,
            teams := r.items.map (fun i => { player_id := i.id, team_number := 1 })
              ++ bl.items.map (fun i => { player_id := i.id, team_number := 2 }) } ∧
    submitScore [p, r, bl] other (.str "") =
      .ok { result_team1 := y, result_team2 := 0,
            teams := r.items.map (fun i => { player_id := i.id, team_number := 1 })
              ++ bl.items.map (fun i => { player_id := i.id, team_number := 2 }) } :=
  ⟨by decide,
   submitScore_ok_eq p r bl (.str "") other 0 y hp hr hbl (by decide) hother hA hB,
   submitScore_ok_eq p r bl other (.str "") y 0 hp hr hbl hother (by decide) hA hB⟩

/-- Witness for C10 at a concrete staffed roster with the blue score left
untouched. -/
theorem emptyScoreParsesToZero_witness :
    coerceScore (.str "") = some 0 ∧
    submitScore [exPoolCol, { exRedCol with items := [exItem1] },
        { exBlueCol with items := [exItem2] }] (.str "") (.num 7) =
      .ok { result_team1 := 0, result_team2 := 7,
            teams := [exItem1].map (fun i => { player_id := i.id, team_number := 1 })
              ++ [exItem2].map (fun i => { player_id := i.id, team_number := 2 }) } ∧
    submitScore [exPoolCol, { exRedCol with items := [exItem1] },
        { exBlueCol with items := [exItem2] }] (.num 7) (.str "") =
      .ok { result_team1 := 7, result_team2 := 0,
            teams := [exItem1].map (fun i => { player_id := i.id, team_number := 1 })
              ++ [exItem2].map (fun i => { player_id := i.id, team_number := 2 }) } :=
  emptyScoreParsesToZero exPoolCol { exRedCol with items := [exItem1] }
    { exBlueCol with items := [exItem2] } (.num 7) 7 rfl rfl rfl rfl
    (by decide) (by decide)

/-- C6: the leaderboard load keeps exactly the active players (as a
permutation of the filtered, mapped list — the sort only reorders), each
kept row shows `elo = round(mu)` for the scope-selected mu, and an absent or
unrecognized scope query parameter resolves to the default scope yearly. -/
theorem leaderboardFilterScopeElo (q : Option String) (raw : List RawPlayer) :
    (leaderboardLoad q raw).1 = resolveScope q ∧
    List.Perm (leaderboardLoad q raw).2
      ((raw.filter (fun p => p.active == true)).map (toRow (resolveScope q))) ∧
    (∀ p : RawPlayer,
      (toRow (resolveScope q) p).elo = jsRound (selectMu (resolveScope q) p.rating)) ∧
    (∀ p : RawPlayer, (toRow Scope.monthly p).elo = jsRound p.rating.mu_monthly) ∧
    (∀ p : RawPlayer, (toRow Scope.yearly p).elo = jsRound p.rating.mu_yearly) ∧
    (∀ p : RawPlayer, (toRow Scope.overall p).elo = jsRound p.rating.mu_overall) ∧
    resolveScope none = Scope.yearly ∧
    (∀ s : String, jsToLower s ≠ "monthly".data → jsToLower s ≠ "yearly".data →
      jsToLower s ≠ "overall".data → resolveScope (some s) = Scope.yearly) := by
  refine ⟨rfl, List.perm_insertionSort eloGE _, fun p => toRow_elo _ p,
    fun p => toRow_elo Scope.monthly p, fun p => toRow_elo Scope.yearly p,
    fun p => toRow_elo Scope.overall p, by decide, ?_⟩
  intro s h1 h2 h3
  simp [resolveScope, h1, h2, h3, DEFAULT_SCOPE]

/-- Witness for C6: an unrecognized scope string resolves to yearly. -/
theorem leaderboardFilterScopeElo_witness :
    resolveScope (some "Bogus") = Scope.yearly :=
  (leaderboardFilterScopeElo (some "Bogus") []).2.2.2.2.2.2.2 "Bogus"
    (by decide) (by decide) (by decide)

/-- C7: the leaderboard rows are the stable descending sort on elo of the
filtered, mapped input: the output is sorted so that every earlier row has
elo at least that of every later row, rows with equal elo keep their
relative input order (captured by the per-elo filter being preserved
verbatim), and the output is a permutation of the input. -/
theorem leaderboardStableDescSort (q : Option String) (raw : List RawPlayer) :
    (leaderboardLoad q raw).2 =
      sortRowsDesc ((raw.filter (fun p => p.active == true)).map (toRow (resolveScope q))) ∧
    List.Sorted eloGE (leaderboardLoad q raw).2 ∧
    (∀ v : Int,
      (leaderboardLoad q raw).2.filter (fun row => row.elo == v) =
        ((raw.filter (fun p => p.active == true)).map (toRow (resolveScope q))).filter
          (fun row => row.elo == v)) ∧
    List.Perm (leaderboardLoad q raw).2
      ((raw.filter (fun p => p.active == true)).map (toRow (resolveScope q))) := by
  refine ⟨rfl, List.sorted_insertionSort eloGE _, ?_, List.perm_insertionSort eloGE _⟩
  intro v
  exact sortRowsDesc_filter v _

def exRatingC9 : Rating :=
  { mu_monthly := 10, sigma_monthly := 1, mu_yearly := 20, sigma_yearly := 1,
    mu_overall := 30, sigma_overall := 1 }

def exRawC9 : RawPlayer :=
  { player_name := "Dana", active := true, wins := 3, games_played := 5,
    rating := exRatingC9 }

/-- C9: two leaderboard loads over the same raw list but different scope
parameters produce rows over exactly the same multiset of player names —
the active-player inclusion is scope-independent — while only the selected
rating fields (hence elo and ordering) may differ; name, wins and losses of
a row never depend on the scope, and the concrete player with
mu_monthly = 10 and mu_yearly = 20 shows elo 10 under monthly and 20 under
yearly. -/
theorem leaderboardScopeSamePlayers (raw : List RawPlayer) (q1 q2 : Option String) :
    List.Perm ((leaderboardLoad q1 raw).2.map (fun row => row.name))
      ((leaderboardLoad q2 raw).2.map (fun row => row.name)) ∧
    List.Perm ((leaderboardLoad q1 raw).2.map (fun row => row.name))
      ((raw.filter (fun p => p.active == true)).map (fun p => p.player_name)) ∧
    (∀ s1 s2 : Scope, ∀ p : RawPlayer,
      (toRow s1 p).name = (toRow s2 p).name ∧
      (toRow s1 p).wins = (toRow s2 p).wins ∧
      (toRow s1 p).losses = (toRow s2 p).losses) ∧
    (toRow Scope.monthly exRawC9).elo = 10 ∧
    (toRow Scope.yearly exRawC9).elo = 20 := by
  have hbase : ∀ q : Option String,
      List.Perm ((leaderboardLoad q raw).2.map (fun row => row.name))
        ((raw.filter (fun p => p.active == true)).map (fun p => p.player_name)) := by
    intro q
    have h1 : List.Perm (leaderboardLoad q raw).2
        ((raw.filter (fun p => p.active == true)).map (toRow (resolveScope q))) :=
      List.perm_insertionSort eloGE _
    have h2 := h1.map (fun row => row.name)
    rw [List.map_map] at h2
    exact h2
  refine ⟨(hbase q1).trans (hbase q2).symm, hbase q1, fun s1 s2 p => ⟨rfl, rfl, rfl⟩, ?_, ?_⟩
  · rw [toRow_elo]
    rw [show selectMu Scope.monthly exRawC9.rating = 10 from rfl]
    unfold jsRound
    rw [Int.floor_eq_iff]
    norm_num
  · rw [toRow_elo]
    rw [show selectMu Scope.yearly exRawC9.rating = 20 from rfl]
    unfold jsRound
    rw [Int.floor_eq_iff]
    norm_num

/-- C8 (refuting the claim): in `submitScore`, the promise handed to
`toast.promise` is never awaited, so under JS run-to-completion semantics
the `finally` block resets `submitting` as soon as the synchronous part of
the handler finishes — strictly before the fetch settles. The guard is
therefore released while the submission is still in flight, and the submit
button is re-enabled before completion. -/
theorem submitGuardReleasedWhileInFlight :
    submitFlightTrace.indexOf SubmitEvent.guardRelease <
      submitFlightTrace.indexOf SubmitEvent.fetchSettle ∧
    SubmitEvent.guardRelease ∈ submitSyncEvents ∧
    SubmitEvent.fetchSettle ∉ submitSyncEvents := by decide
